import Mathlib

/-!
Verification development for the dynamic query specification engine of the
repository (src/api/utils/utils_bd.py, src/api/utils/crud_utils.py,
src/api/utils/query_parser.py).

The Python code is shallowly embedded: query-string values become a small
Value sum type, SQLAlchemy queries become an explicit Query record holding
the joins, WHERE predicates, ordering expressions and loader options that
the code attaches, and the SQLAlchemy schema introspection (mapped classes,
columns, RelationshipProperty objects) becomes a concrete Schema record.
Dictionaries are embedded as insertion-ordered association lists, matching
Python dict semantics (update in place keeps position, new keys append).
-/

deriving instance DecidableEq for Except

/-- Lowercasing of a string, character by character, modelling the Python
str.lower calls of the sources (all strings the engine compares after
lowercasing are ASCII). -/
def strLower (s : String) : String :=
  String.mk (s.toList.map Char.toLower)

/-- Whitespace test used by the Python str.strip calls of the sources. -/
def isSpaceChar (c : Char) : Bool :=
  c = ' ' ∨ c = '\t' ∨ c = '\n' ∨ c = '\r'

/-- Trimming of leading and trailing whitespace, modelling the Python
str.strip calls of the sources. -/
def strTrim (s : String) : String :=
  String.mk (((s.toList.dropWhile isSpaceChar).reverse.dropWhile isSpaceChar).reverse)

/-- Parsed query-string values as produced and consumed by the engine:
plain strings, booleans and null from value coercion, and lists of strings
from the in/notin comma splitting. -/
inductive Value where
  | str (s : String)
  | bool (b : Bool)
  | null
  | list (xs : List String)
deriving DecidableEq, Repr

/-- Embedding of the _parse_bool helper of utils_bd.py and crud_utils.py:
booleans pass through, strings compare case-insensitively against
true/yes/1/on, and any other value goes through Python truthiness
(None is falsy, a list is truthy when non-empty). -/
def _parse_bool : Value → Bool
  | Value.bool b => b
  | Value.str s => strLower s ∈ ["true", "yes", "1", "on"]
  | Value.null => false
  | Value.list xs => !xs.isEmpty

/-- Embedding of _parse_filter_value of query_parser.py (duplicated in
utils_bd.py): case-insensitive coercion of raw string values to booleans
and null, leaving everything else as the original string. -/
def _parse_filter_value (value : String) : Value :=
  let value_lower := strLower value
  if value_lower ∈ ["true", "yes", "on", "1"] then Value.bool true
  else if value_lower ∈ ["false", "no", "off", "0"] then Value.bool false
  else if value_lower ∈ ["null", "none"] then Value.null
  else Value.str value

/-- Splitting a character list on every occurrence of a separator character,
with the semantics of Python str.split for a one-character separator:
the result is never empty and empty segments are kept. -/
def splitOnChar (sep : Char) : List Char → List (List Char)
  | [] => [[]]
  | c :: rest =>
    if c = sep then [] :: splitOnChar sep rest
    else
      match splitOnChar sep rest with
      | [] => [[c]]
      | g :: gs => (c :: g) :: gs

/-- Splitting a field specifier on dots, as field_specifier.split in
the Python sources. -/
def splitDot (s : String) : List String :=
  (splitOnChar '.' s.toList).map String.mk

/-- Splitting a comma-separated parameter, as select_str.split in
the Python sources. -/
def splitComma (s : String) : List String :=
  (splitOnChar ',' s.toList).map String.mk

/-- Insertion-ordered association list lookup (Python dict read). -/
def lookupKey {α : Type} : List (String × α) → String → Option α
  | [], _ => none
  | (k, v) :: rest, key => if k = key then some v else lookupKey rest key

/-- Insertion-ordered association list write (Python dict write): an
existing key keeps its position, a new key is appended at the end. -/
def setKey {α : Type} : List (String × α) → String → α → List (String × α)
  | [], key, v => [(key, v)]
  | (k, w) :: rest, key, v =>
    if k = key then (key, v) :: rest else (k, w) :: setKey rest key v

/-- Helper for the FILTER_PATTERN model: a tail of the key that must be a
capture group of at least one character followed by the final closing
bracket of the pattern. -/
def tailGroup (cs : List Char) : Option (List Char) :=
  if cs.getLast? = some ']' ∧ cs.length ≥ 2 then some cs.dropLast else none

/-- Helper for the FILTER_PATTERN model: backtracking scan for the first
capture group. The group lazily takes at least one character and stops at
the first closing-opening bracket pair after which the rest of the key
still completes the pattern, exactly as the non-greedy regex
filter[(.+?)][(.+?)] does under fullmatch. -/
def groupScan (acc : List Char) : List Char → Option (List Char × List Char)
  | [] => none
  | c :: rest =>
    if c = ']' ∧ acc ≠ [] then
      match rest with
      | '[' :: rest2 =>
        match tailGroup rest2 with
        | some b => some (acc, b)
        | none => groupScan (acc ++ [c]) rest
      | _ => groupScan (acc ++ [c]) rest
    else groupScan (acc ++ [c]) rest

/-- Embedding of FILTER_PATTERN.fullmatch of query_parser.py and
utils_bd.py: the regex filter[(.+?)][(.+?)] matched against the whole
query-string key, returning the two capture groups. -/
def matchFilterKey (key : String) : Option (String × String) :=
  let cs := key.toList
  if cs.take 7 = "filter[".toList then
    match groupScan [] (cs.drop 7) with
    | some (a, b) => some (String.mk a, String.mk b)
    | none => none
  else none

/-- Result of parse_filters: the filter map (field specifier to operator to
parsed value) plus the overwrite diagnostics the function logs, each
recorded as the (field, operator) pair being overwritten. -/
structure ParsedFilters where
  filters : List (String × List (String × Value))
  diags : List (String × String)
deriving DecidableEq, Repr

/-- Loop of parse_filters of query_parser.py (duplicated in utils_bd.py)
over the multi-items of the query parameters, threading the set of already
processed raw keys. -/
def parse_filters_go : List (String × String) → List String → ParsedFilters → ParsedFilters
  | [], _, acc => acc
  | (key, value) :: rest, processed, acc =>
    if key ∈ processed then parse_filters_go rest processed acc
    else
      match matchFilterKey key with
      | some (field_specifier, operator0) =>
        let operator := strLower operator0
        if field_specifier = "" ∨ operator = "" then
          parse_filters_go rest processed acc
        else
          let parsed_value := _parse_filter_value value
          let fieldMap := (lookupKey acc.filters field_specifier).getD []
          let diags :=
            match lookupKey fieldMap operator with
            | some _ => acc.diags ++ [(field_specifier, operator)]
            | none => acc.diags
          let filters := setKey acc.filters field_specifier (setKey fieldMap operator parsed_value)
          parse_filters_go rest (processed ++ [key]) { filters := filters, diags := diags }
      | none => parse_filters_go rest processed acc

/-- Embedding of parse_filters of query_parser.py (duplicated verbatim in
utils_bd.py): walks the raw key/value multi-map, skips keys already
processed, matches recognized keys against FILTER_PATTERN, lowercases the
operator, coerces the value, and records an overwrite diagnostic when a
field and operator pair is written twice. -/
def parse_filters (query_params : List (String × String)) : ParsedFilters :=
  parse_filters_go query_params [] { filters := [], diags := [] }

/-- Embedding of a SQLAlchemy RelationshipProperty as the engine sees it:
the source entity owning the relationship attribute, the attribute key, and
the target entity reached through mapper.class_. -/
structure RelProp where
  source : String
  rname : String
  target : String
deriving DecidableEq, Repr

/-- Entity description: the mapped class name, its column attribute names
and its relationship properties. -/
structure EntityDef where
  ename : String
  cols : List String
  rels : List RelProp
deriving DecidableEq, Repr

/-- Static schema registry: the set of mapped classes the engine resolves
field specifiers against. -/
structure Schema where
  entities : List EntityDef
deriving DecidableEq, Repr

/-- Result of getattr on a mapped class: either a column attribute of the
entity or a relationship property. -/
inductive Attr where
  | col (entity : String) (cname : String)
  | rel (r : RelProp)
deriving DecidableEq, Repr

def findEntity (schema : Schema) (e : String) : Option EntityDef :=
  schema.entities.find? (fun ed => ed.ename == e)

/-- Embedding of getattr plus the attr.property inspection of the Python
sources: a name on an entity is a column attribute, a relationship
attribute, or absent. -/
def getAttr (schema : Schema) (e part : String) : Option Attr :=
  match findEntity schema e with
  | none => none
  | some ed =>
    if part ∈ ed.cols then some (Attr.col e part)
    else
      match ed.rels.find? (fun r => r.rname == part) with
      | some r => some (Attr.rel r)
      | none => none

/-- Column names of an entity in the schema. -/
def entityCols (schema : Schema) (e : String) : List String :=
  match findEntity schema e with
  | none => []
  | some ed => ed.cols

/-- Relationship attribute names of an entity, as the set comprehension
over sa_inspect(model_cls).relationships in apply_select_load_options. -/
def relKeys (schema : Schema) (e : String) : List String :=
  match findEntity schema e with
  | none => []
  | some ed => ed.rels.map (fun r => r.rname)

/-- Client-input error taxonomy of the engine. Every constructor stands for
one of the ValueError raise sites of the Python sources. -/
inductive QErr where
  | unknownField
  | relationshipAsTerminal
  | unmappedBaseRelationship
  | extraPartsAfterColumn
  | unresolvedField
  | unsupportedOperator
  | invalidOperatorValue
  | invalidSortDirection
deriving DecidableEq, Repr

/-- Loop of _get_column_or_relationship of crud_utils.py and utils_bd.py
over the dot-separated parts of a field specifier. The flag records
whether the current part is the first one (index zero in the Python loop),
for which the relationship must come from the caller-supplied
relations_map; nested hops use the relationship property found on the
current entity, and the current entity advances through mapper.class_. -/
def resolveParts (schema : Schema) (relations_map : List (String × RelProp)) :
    Bool → String → List String → Except QErr ((String × String) × String × List RelProp)
  | _, _, [] => Except.error QErr.unresolvedField
  | is_first, current_model, part :: rest =>
    match getAttr schema current_model part with
    | none => Except.error QErr.unknownField
    | some (Attr.col e c) =>
      if rest = [] then Except.ok ((e, c), current_model, [])
      else Except.error QErr.extraPartsAfterColumn
    | some (Attr.rel rp) =>
      if rest = [] then Except.error QErr.relationshipAsTerminal
      else
        match (if is_first then lookupKey relations_map part else some rp) with
        | none => Except.error QErr.unmappedBaseRelationship
        | some j =>
          match resolveParts schema relations_map false rp.target rest with
          | Except.error e => Except.error e
          | Except.ok (col, fin, joins) => Except.ok (col, fin, j :: joins)

/-- Embedding of _get_column_or_relationship of crud_utils.py and
utils_bd.py: split the field specifier on dots and resolve the parts
against the schema, returning the terminal column, the entity owning it,
and the list of relationship properties to join. -/
def _get_column_or_relationship (schema : Schema) (model_cls field_specifier : String)
    (relations_map : List (String × RelProp)) :
    Except QErr ((String × String) × String × List RelProp) :=
  resolveParts schema relations_map true model_cls (splitDot field_specifier)

/-- Boolean predicates attached to the WHERE clause. Every comparison
operator of OPERATOR_MAP except isnull produces a predicate tagged with
the operator name; isnull dispatches on the coerced boolean value to an
is-null or is-not-null predicate, as in both Python OPERATOR_MAP tables. -/
inductive Predicate where
  | cmp (op : String) (col : String × String) (v : Value)
  | isNull (col : String × String)
  | isNotNull (col : String × String)
deriving DecidableEq, Repr

/-- Keys of the OPERATOR_MAP dictionaries of crud_utils.py and
utils_bd.py. -/
def OPERATOR_MAP_keys : List String :=
  ["eq", "neq", "lt", "lte", "gt", "gte", "in", "notin", "like", "ilike",
   "isnull", "contains", "startswith", "endswith"]

/-- Application of the closure stored in OPERATOR_MAP under a supported
operator key: isnull consults _parse_bool, every other operator builds its
comparison predicate from the column and the value. -/
def applyOperator (op : String) (c : String × String) (v : Value) : Predicate :=
  if op = "isnull" then
    (if _parse_bool v then Predicate.isNull c else Predicate.isNotNull c)
  else Predicate.cmp op c v

/-- Loader options attached through Select.options in the Python sources:
with_loader_criteria entries added by apply_filters, and the selectinload
and noload markers added by apply_select_load_options. -/
inductive LoadOpt where
  | loaderCriteria (relName : String) (p : Predicate)
  | selectinload (relName : String)
  | noload (relName : String)
deriving DecidableEq, Repr

/-- Embedding of a SQLAlchemy Select as the engine manipulates it: the
joins issued through Select.join in call order, the WHERE predicates, the
order-by expressions as direction and column pairs, and the loader
options. Select.join is modelled as appending the relationship property:
the code itself never removes or merges joins and its comments explicitly
defer any further deduplication to SQLAlchemy. -/
structure Query where
  joins : List RelProp
  wheres : List Predicate
  orderBy : List (String × (String × String))
  loadOpts : List LoadOpt
deriving DecidableEq, Repr

/-- Empty select statement the tests start from. -/
def emptyQuery : Query :=
  { joins := [], wheres := [], orderBy := [], loadOpts := [] }

/-- Join loop of apply_filters of utils_bd.py for one resolved filter
path: each relationship property is joined only when it is not yet in the
already_joined_relationships_for_where set, which is threaded through the
whole call as an insertion-ordered list. -/
def addJoins : Query → List RelProp → List RelProp → Query × List RelProp
  | q, seen, [] => (q, seen)
  | q, seen, r :: rs =>
    if r ∈ seen then addJoins q seen rs
    else addJoins { q with joins := q.joins ++ [r] } (seen ++ [r]) rs

/-- Coercion applied to in and notin values in both apply_filters
versions: a list passes through, a string is split on commas with each
item stripped and empty items dropped, anything else is rejected. -/
def coerceListValue : Value → Except QErr Value
  | Value.list xs => Except.ok (Value.list xs)
  | Value.str s =>
    Except.ok (Value.list (((splitComma s).map strTrim).filter (fun t => t ≠ "")))
  | _ => Except.error QErr.invalidOperatorValue

/-- Dedup key of the applied_loader_criteria_options set of utils_bd.py:
relationship key, column key, operator code as written, and the original
uncoerced value. -/
def loaderKey (relName colName op : String) (v : Value) : String × String × String × Value :=
  (relName, colName, op, v)

/-- Operator loop of apply_filters of utils_bd.py for one field: validate
the operator against OPERATOR_MAP, coerce in and notin values, append the
WHERE predicate, and, when the filter goes through a relationship whose
directly related entity owns the target column, attach a
with_loader_criteria option deduplicated by the loader key. -/
def apply_ops (target_column : String × String) (joins_path : List RelProp) :
    Query → List (String × String × String × Value) → List (String × Value) →
    Except QErr (Query × List (String × String × String × Value))
  | q, lc, [] => Except.ok (q, lc)
  | q, lc, (op_code, value) :: rest =>
    let op := strLower op_code
    if op ∉ OPERATOR_MAP_keys then Except.error QErr.unsupportedOperator
    else
      match (if op = "in" ∨ op = "notin" then coerceListValue value else Except.ok value) with
      | Except.error e => Except.error e
      | Except.ok value2 =>
        let q1 := { q with wheres := q.wheres ++ [applyOperator op target_column value2] }
        match joins_path with
        | [] => apply_ops target_column joins_path q1 lc rest
        | first_rel :: _ =>
          if target_column.1 = first_rel.target then
            let okey := loaderKey first_rel.rname target_column.2 op_code value
            if okey ∈ lc then apply_ops target_column joins_path q1 lc rest
            else
              apply_ops target_column joins_path
                { q1 with loadOpts := q1.loadOpts ++
                    [LoadOpt.loaderCriteria first_rel.rname (applyOperator op target_column value2)] }
                (lc ++ [okey]) rest
          else apply_ops target_column joins_path q1 lc rest

/-- Field loop of apply_filters of utils_bd.py: resolve each field
specifier, join its relationship path with deduplication, then run the
operator loop, failing fast on the first invalid field or operator. -/
def apply_filters_go (schema : Schema) (model_cls : String)
    (relations_map : List (String × RelProp)) :
    Query → List RelProp → List (String × String × String × Value) →
    List (String × List (String × Value)) →
    Except QErr (Query × List RelProp × List (String × String × String × Value))
  | q, seen, lc, [] => Except.ok (q, seen, lc)
  | q, seen, lc, (field_specifier, operators) :: rest =>
    match _get_column_or_relationship schema model_cls field_specifier relations_map with
    | Except.error e => Except.error e
    | Except.ok (target_column, _, joins_path) =>
      match addJoins q seen joins_path with
      | (q1, seen1) =>
        match apply_ops target_column joins_path q1 lc operators with
        | Except.error e => Except.error e
        | Except.ok (q2, lc2) => apply_filters_go schema model_cls relations_map q2 seen1 lc2 rest

/-- Embedding of apply_filters of utils_bd.py. The filter map is passed
as an insertion-ordered association list, as Python dict iteration is. The
isinstance dict check of the source is subsumed by the typing of the
embedding. -/
def apply_filters (schema : Schema) (query : Query) (model_cls : String)
    (filter_params : List (String × List (String × Value)))
    (relations_map : List (String × RelProp)) : Except QErr Query :=
  match apply_filters_go schema model_cls relations_map query [] [] filter_params with
  | Except.error e => Except.error e
  | Except.ok (q, _, _) => Except.ok q

/-- Embedding of apply_sorting of utils_bd.py (the crud_utils.py copy
differs only in comments): empty sort_by is a no-op before any
validation, the direction defaults to asc when sort_dir is falsy and must
otherwise lowercase to asc or desc, the sort path is resolved like a
filter path, every hop is joined unconditionally, and one order-by
expression on the terminal column is appended. -/
def apply_sorting (schema : Schema) (query : Query) (model_cls sort_by : String)
    (sort_dir : Option String) (relations_map : List (String × RelProp)) :
    Except QErr Query :=
  if sort_by = "" then Except.ok query
  else
    let direction :=
      match sort_dir with
      | none => "asc"
      | some s => if s = "" then "asc" else strLower s
    if direction ≠ "asc" ∧ direction ≠ "desc" then Except.error QErr.invalidSortDirection
    else
      match _get_column_or_relationship schema model_cls sort_by relations_map with
      | Except.error e => Except.error e
      | Except.ok (target_column, _, joins_to_apply) =>
        Except.ok { query with
          joins := query.joins ++ joins_to_apply,
          orderBy := query.orderBy ++ [(direction, target_column)] }

/-- Set insertion for the relationships set of
extract_relationships_from_select_hybrid; only membership in the result is
ever consumed. -/
def insertSet (s : List String) (x : String) : List String :=
  if x ∈ s then s else s ++ [x]

/-- Embedding of the anchored regex match re.match of bracket syntax in
extract_relationships_from_select_hybrid: an opening bracket, then at
least one character that is not a closing bracket, then a closing
bracket, anywhere before the end of the token. -/
def bracketHead (s : String) : Option String :=
  match s.toList with
  | '[' :: rest =>
    let inner := rest.takeWhile (fun c => c != ']')
    if inner = [] then none
    else if rest.drop inner.length = [] then none
    else some (String.mk inner)
  | _ => none

/-- Embedding of extract_relationships_from_select_hybrid of utils_bd.py:
split the select parameter on commas, strip and drop empty tokens, then
collect relationship names either from a leading bracket group or, for
legacy dotted syntax, from the first dot segment when it is a declared
relationship key of the model. -/
def extract_relationships_from_select_hybrid (select_param : Option String)
    (model_relation_keys : List String) : List String :=
  match select_param with
  | none => []
  | some s =>
    if s = "" then []
    else
      let raw_fields := ((splitComma s).map strTrim).filter (fun t => t ≠ "")
      raw_fields.foldl (fun acc field_path =>
        if field_path.toList.take 1 = ['['] ∧ field_path.toList.contains ']' then
          match bracketHead field_path with
          | some r => insertSet acc r
          | none => acc
        else
          match splitDot field_path with
          | [] => acc
          | base_name :: _ =>
            if base_name ∈ model_relation_keys then insertSet acc base_name else acc) []

/-- Embedding of apply_select_load_options of utils_bd.py: extract the
requested relationships from the include parameter, then mark every
relationship of the base entity with selectinload when requested and
noload otherwise, attaching the options only when there is at least
one. -/
def apply_select_load_options (schema : Schema) (query : Query) (model_cls : String)
    (include_param : Option String) : Query :=
  let model_relation_keys := relKeys schema model_cls
  let relations_to_load :=
    extract_relationships_from_select_hybrid include_param model_relation_keys
  let options_to_apply := model_relation_keys.map (fun rel_name =>
    if rel_name ∈ relations_to_load then LoadOpt.selectinload rel_name
    else LoadOpt.noload rel_name)
  match options_to_apply with
  | [] => query
  | _ :: _ => { query with loadOpts := query.loadOpts ++ options_to_apply }

/-- Node of the Pydantic include tree built by
parse_select_fields_for_pydantic: True leaves and nested dictionaries,
the latter as insertion-ordered association lists. -/
inductive SelNode where
  | leaf
  | node (children : List (String × SelNode))

/-- Embedding of the fullmatch of the list_part_regex of
parse_select_fields_for_pydantic: a whole segment of the shape open
bracket, one or more word characters, close bracket. -/
def matchListPart (part : String) : Option String :=
  match part.toList with
  | '[' :: rest =>
    if rest.getLast? = some ']' then
      let inner := rest.dropLast
      if inner ≠ [] ∧ inner.all (fun c => c.isAlphanum || c == '_') then
        some (String.mk inner)
      else none
    else none
  | _ => none

/-- Inner loop of parse_select_fields_for_pydantic over the dot-separated
parts of one field path, rewritten functionally: the Python code mutates
nested dictionaries in place through a current_level reference walking a
single path, which is equivalent to rebuilding that path. A bracket
segment ensures its dictionary and an inner __all__ dictionary exist and
either finishes by overwriting __all__ with True or descends into it; a
bare final segment becomes True unless an object dictionary already sits
there; a bare non-final segment ensures a dictionary (overwriting any
leaf) and descends. -/
def insertParts : List (String × SelNode) → List String → List (String × SelNode)
  | d, [] => d
  | d, part :: rest =>
    match matchListPart part with
    | some list_name =>
      let list_container :=
        match lookupKey d list_name with
        | some (SelNode.node m) => m
        | _ => []
      if rest = [] then
        setKey d list_name (SelNode.node (setKey list_container "__all__" SelNode.leaf))
      else
        let all_node :=
          match lookupKey list_container "__all__" with
          | some (SelNode.node m) => m
          | _ => []
        setKey d list_name
          (SelNode.node (setKey list_container "__all__" (SelNode.node (insertParts all_node rest))))
    | none =>
      if rest = [] then
        match lookupKey d part with
        | some (SelNode.node _) => d
        | _ => setKey d part SelNode.leaf
      else
        let sub :=
          match lookupKey d part with
          | some (SelNode.node m) => m
          | _ => []
        setKey d part (SelNode.node (insertParts sub rest))

/-- Embedding of parse_select_fields_for_pydantic of utils_bd.py: a falsy
select string yields None, tokens are split on commas, stripped and
dropped when empty, each remaining field path is inserted into the
include dictionary, and an empty result dictionary again yields None. -/
def parse_select_fields_for_pydantic (select_str : Option String) :
    Option (List (String × SelNode)) :=
  match select_str with
  | none => none
  | some s =>
    if s = "" then none
    else
      match ((splitComma s).map strTrim).filter (fun t => t ≠ "") with
      | [] => none
      | fields_to_process =>
        match fields_to_process.foldl (fun d f => insertParts d (splitDot f)) [] with
        | [] => none
        | d => some d

/-- Concrete schema used by the witnesses and counterexamples: a base
entity A with a to-many relationship named rel to entity B, which has a
nested relationship named sub to entity C. -/
def relAB : RelProp := { source := "A", rname := "rel", target := "B" }

def relBC : RelProp := { source := "B", rname := "sub", target := "C" }

def relDA : RelProp := { source := "D", rname := "a", target := "A" }

def testSchema : Schema :=
  { entities :=
    [ { ename := "A", cols := ["x", "id"], rels := [relAB] },
      { ename := "B", cols := ["a", "b"], rels := [relBC] },
      { ename := "C", cols := ["c"], rels := [] },
      { ename := "D", cols := ["y"], rels := [relDA] } ] }

def rmapA : List (String × RelProp) := [("rel", relAB)]

/-- Operator loop of apply_filters of crud_utils.py for one field: the
same operator validation, in and notin coercion and WHERE application as
the utils_bd.py copy, but without the with_loader_criteria block. -/
def crud_apply_ops (target_column : String × String) :
    Query → List (String × Value) → Except QErr Query
  | q, [] => Except.ok q
  | q, (op_code, value) :: rest =>
    let op := strLower op_code
    if op ∉ OPERATOR_MAP_keys then Except.error QErr.unsupportedOperator
    else
      match (if op = "in" ∨ op = "notin" then coerceListValue value else Except.ok value) with
      | Except.error e => Except.error e
      | Except.ok value2 =>
        crud_apply_ops target_column
          { q with wheres := q.wheres ++ [applyOperator op target_column value2] } rest

/-- Field loop of apply_filters of crud_utils.py: resolve each field
specifier, then join every relationship property of its path
unconditionally, because the membership check against the applied_joins
set is commented out in the source (the set is written but never read, so
it is omitted here), then run the operator loop. -/
def crud_apply_filters_go (schema : Schema) (model_cls : String)
    (relations_map : List (String × RelProp)) :
    Query → List (String × List (String × Value)) → Except QErr Query
  | q, [] => Except.ok q
  | q, (field_specifier, operators) :: rest =>
    match _get_column_or_relationship schema model_cls field_specifier relations_map with
    | Except.error e => Except.error e
    | Except.ok (target_column, _, joins_to_apply) =>
      match crud_apply_ops target_column
          { q with joins := q.joins ++ joins_to_apply } operators with
      | Except.error e => Except.error e
      | Except.ok q2 => crud_apply_filters_go schema model_cls relations_map q2 rest

/-- Embedding of apply_filters of crud_utils.py, the copy the service
layer (base_service.py) imports: identical to the utils_bd.py copy except
that joins are applied once per clause occurrence with the deduplication
check disabled and no loader criteria are attached. -/
def crud_apply_filters (schema : Schema) (query : Query) (model_cls : String)
    (filter_params : List (String × List (String × Value)))
    (relations_map : List (String × RelProp)) : Except QErr Query :=
  crud_apply_filters_go schema model_cls relations_map query filter_params

/-- Discriminator for failed compilations, used to state that a whole
filter map is rejected. -/
def isErr {α : Type} : Except QErr α → Bool
  | Except.error _ => true
  | Except.ok _ => false

/-- A successful association list lookup comes from an entry of the
list. -/
theorem lookupKey_mem {α : Type} :
    ∀ (m : List (String × α)) (k : String) (v : α),
    lookupKey m k = some v → (k, v) ∈ m := by
  intro m
  induction m with
  | nil => intro k v h; simp [lookupKey] at h
  | cons kv rest ih =>
    intro k v h
    obtain ⟨k0, v0⟩ := kv
    simp only [lookupKey] at h
    by_cases hk : k0 = k
    · rw [if_pos hk] at h
      injection h with h
      subst hk h
      exact List.mem_cons_self _ _
    · rw [if_neg hk] at h
      exact List.mem_cons_of_mem _ (ih k v h)

/-- C7: parsing the selector string with one bracketed segment and one
legacy dotted segment produces exactly the mixed selection tree of the
claim: the bracketed relationship nests its field under an implicit
__all__ level while the legacy segment nests directly. -/
theorem c7_mixed_selector_tree :
    parse_select_fields_for_pydantic (some "[tenants].nome,roles.nome") =
      some [("tenants", SelNode.node [("__all__", SelNode.node [("nome", SelNode.leaf)])]),
            ("roles", SelNode.node [("nome", SelNode.leaf)])] := rfl

/-- C10: apply_sorting with an empty sort_by returns the query unchanged
for every sort direction value without validating it, and the
invalid-sort-direction error can only arise for a non-empty sort_by. -/
theorem c10_empty_sort_by_is_noop :
    (∀ (schema : Schema) (q : Query) (m : String) (sd : Option String)
       (rmap : List (String × RelProp)),
       apply_sorting schema q m "" sd rmap = Except.ok q)
    ∧ (∀ (schema : Schema) (q : Query) (m sb : String) (sd : Option String)
         (rmap : List (String × RelProp)),
       apply_sorting schema q m sb sd rmap = Except.error QErr.invalidSortDirection →
       sb ≠ "") := by
  constructor
  · intro schema q m sd rmap
    simp [apply_sorting]
  · intro schema q m sb sd rmap h hsb
    subst hsb
    simp [apply_sorting] at h

/-- Witness for C10 at concrete inputs: the no-op on an empty sort_by even
with an invalid direction, and a non-empty sort_by behind a concrete
invalid-direction error. -/
theorem c10_witness :
    apply_sorting testSchema emptyQuery "A" "" (some "bogus") [] = Except.ok emptyQuery ∧
    ("x" : String) ≠ "" :=
  ⟨c10_empty_sort_by_is_noop.1 testSchema emptyQuery "A" (some "bogus") [],
   c10_empty_sort_by_is_noop.2 testSchema emptyQuery "A" "x" (some "bogus") [] (by decide)⟩

/-- Counterexample to C2: two recognized entries with the identical raw
key filter[a][eq] keep the first value, not the last, and emit no
diagnostic. -/
theorem c2_counterexample :
    parse_filters [("filter[a][eq]", "x"), ("filter[a][eq]", "y")] =
      { filters := [("a", [("eq", Value.str "x")])], diags := [] } ∧
    Value.str "x" ≠ Value.str "y" := by
  constructor
  · rfl
  · decide

/-- C2 as amended: when the duplicate clauses carry the identical raw key,
the first value wins and no diagnostic is emitted, because the
processed-keys set skips later occurrences of a key already handled;
last-write-wins with an overwrite diagnostic happens only when distinct
raw keys normalize to the same field and operator, as with a
case-differing operator. -/
theorem c2_duplicate_clause_semantics :
    ∀ v1 v2 : String,
    parse_filters [("filter[a][eq]", v1), ("filter[a][eq]", v2)] =
      { filters := [("a", [("eq", _parse_filter_value v1)])], diags := [] } ∧
    parse_filters [("filter[a][EQ]", v1), ("filter[a][eq]", v2)] =
      { filters := [("a", [("eq", _parse_filter_value v2)])], diags := [("a", "eq")] } :=
  fun _ _ => ⟨rfl, rfl⟩

/-- Raw values spelled null or none in any letter case parse to the null
value. -/
theorem parse_value_null_like :
    ∀ s : String, (strLower s = "null" ∨ strLower s = "none") →
    _parse_filter_value s = Value.null := by
  intro s h
  rcases h with h | h <;> simp [_parse_filter_value, h]

/-- C9: a filter value of null or none in any letter case is stored as
the parsed null value, and the isnull operator applied to that parsed
value compiles to is-not-null, because null coerces to boolean false. -/
theorem c9_null_value_isnull_not_null :
    ∀ (s : String) (col : String × String),
    (strLower s = "null" ∨ strLower s = "none") →
    parse_filters [("filter[a][isnull]", s)] =
      { filters := [("a", [("isnull", Value.null)])], diags := [] } ∧
    applyOperator "isnull" col Value.null = Predicate.isNotNull col := by
  intro s col h
  constructor
  · have hbase : parse_filters [("filter[a][isnull]", s)] =
        { filters := [("a", [("isnull", _parse_filter_value s)])], diags := [] } := rfl
    rw [hbase, parse_value_null_like s h]
  · rfl

/-- Witness for C9 at the concrete raw value NULL and a concrete
column. -/
theorem c9_witness :
    parse_filters [("filter[a][isnull]", "NULL")] =
      { filters := [("a", [("isnull", Value.null)])], diags := [] } ∧
    applyOperator "isnull" ("E", "x") Value.null = Predicate.isNotNull ("E", "x") :=
  c9_null_value_isnull_not_null "NULL" ("E", "x") (Or.inl (by decide))

/-- Closed form of the load planner: the attached options are exactly one
selectinload or noload marker per relationship of the base entity,
according to membership in the extracted include set. -/
theorem apply_select_load_options_closed_form :
    ∀ (schema : Schema) (q : Query) (m : String) (inc : Option String),
    apply_select_load_options schema q m inc =
      { q with loadOpts := q.loadOpts ++ (relKeys schema m).map (fun rel_name =>
          if rel_name ∈ extract_relationships_from_select_hybrid inc (relKeys schema m)
          then LoadOpt.selectinload rel_name else LoadOpt.noload rel_name) } := by
  intro schema q m inc
  unfold apply_select_load_options
  cases h : (relKeys schema m).map (fun rel_name =>
      if rel_name ∈ extract_relationships_from_select_hybrid inc (relKeys schema m)
      then LoadOpt.selectinload rel_name else LoadOpt.noload rel_name) with
  | nil => simp [h]
  | cons a as => simp [h]

/-- Evaluation of the hybrid extraction on the include string of the
claim: the token a is collected when it is a declared relationship key and
the token b is dropped when it is not. -/
theorem extract_ab :
    ∀ keys : List String, "a" ∈ keys → "b" ∉ keys →
    extract_relationships_from_select_hybrid (some "a,b") keys = ["a"] := by
  intro keys hA hB
  have h1 : extract_relationships_from_select_hybrid (some "a,b") keys =
      (if "b" ∈ keys then insertSet (if "a" ∈ keys then insertSet [] "a" else []) "b"
       else (if "a" ∈ keys then insertSet [] "a" else [])) := rfl
  rw [h1, if_neg hB, if_pos hA]
  decide

/-- C3: the load planner with an empty include input marks every
relationship of the base entity noload and eager-loads none; with the
include string a,b where only a is a declared relationship, a is marked
selectinload, b is silently dropped without error, and every other
relationship is marked noload. -/
theorem c3_load_planner_suppress_and_load :
    (∀ (schema : Schema) (q : Query) (m : String) (inc : Option String),
       inc = none ∨ inc = some "" →
       apply_select_load_options schema q m inc =
         { q with loadOpts := q.loadOpts ++ (relKeys schema m).map LoadOpt.noload })
    ∧ (∀ (schema : Schema) (q : Query) (m : String),
       "a" ∈ relKeys schema m → "b" ∉ relKeys schema m →
       apply_select_load_options schema q m (some "a,b") =
         { q with loadOpts := q.loadOpts ++ (relKeys schema m).map (fun r =>
             if r = "a" then LoadOpt.selectinload r else LoadOpt.noload r) }) := by
  constructor
  · intro schema q m inc hinc
    rw [apply_select_load_options_closed_form]
    have hext : extract_relationships_from_select_hybrid inc (relKeys schema m) = [] := by
      rcases hinc with h | h <;> subst h <;> rfl
    rw [hext]
    have hm : (relKeys schema m).map (fun rel_name =>
        if rel_name ∈ ([] : List String) then LoadOpt.selectinload rel_name
        else LoadOpt.noload rel_name) = (relKeys schema m).map LoadOpt.noload :=
      List.map_congr_left (fun r _ => by simp)
    rw [hm]
  · intro schema q m hA hB
    rw [apply_select_load_options_closed_form]
    rw [extract_ab (relKeys schema m) hA hB]
    have hm : (relKeys schema m).map (fun rel_name =>
        if rel_name ∈ ["a"] then LoadOpt.selectinload rel_name
        else LoadOpt.noload rel_name) = (relKeys schema m).map (fun r =>
        if r = "a" then LoadOpt.selectinload r else LoadOpt.noload r) :=
      List.map_congr_left (fun r _ => by simp)
    rw [hm]

/-- Witness for C3 at the concrete schema: entity A with its only
relationship rel gets a noload marker under an empty include, and entity D
with its only relationship a gets a selectinload marker under the include
string a,b. -/
theorem c3_witness :
    apply_select_load_options testSchema emptyQuery "A" none =
      { emptyQuery with loadOpts := emptyQuery.loadOpts ++ (relKeys testSchema "A").map LoadOpt.noload } ∧
    apply_select_load_options testSchema emptyQuery "D" (some "a,b") =
      { emptyQuery with loadOpts := emptyQuery.loadOpts ++ (relKeys testSchema "D").map (fun r =>
          if r = "a" then LoadOpt.selectinload r else LoadOpt.noload r) } :=
  ⟨c3_load_planner_suppress_and_load.1 testSchema emptyQuery "A" none (Or.inl rfl),
   c3_load_planner_suppress_and_load.2 testSchema emptyQuery "D" (by decide) (by decide)⟩


/-- A successful column lookup through getAttr returns a column of the
entity it was asked about. -/
theorem getAttr_col :
    ∀ (schema : Schema) (e p e2 c : String),
    getAttr schema e p = some (Attr.col e2 c) →
    e2 = e ∧ c = p ∧ p ∈ entityCols schema e := by
  intro schema e p e2 c h
  unfold getAttr at h
  split at h
  · cases h
  · rename_i ed hfe
    split at h
    · rename_i hc
      injection h with h
      injection h with h1 h2
      exact ⟨h1.symm, h2.symm, by unfold entityCols; rw [hfe]; exact hc⟩
    · split at h
      · cases h
      · cases h

/-- Shape invariant of the resolution loop: on success the join list has
one hop per part except the terminal column part, the column belongs to
the final entity, and the final entity is the current entity when there
are no hops and the target of the last hop otherwise. The hypothesis ties
the caller-supplied relations_map to the schema for the first hop, as the
source comments assert for the map entries. -/
theorem resolveParts_ok_spec (schema : Schema) (rmap : List (String × RelProp)) :
    ∀ (parts : List String) (first : Bool) (current : String)
      (col : String × String) (fin : String) (joins : List RelProp),
    (first = true → ∀ pr ∈ rmap, ∀ rs,
        getAttr schema current pr.1 = some (Attr.rel rs) → pr.2 = rs) →
    resolveParts schema rmap first current parts = Except.ok (col, fin, joins) →
    joins.length + 1 = parts.length ∧ col.1 = fin ∧ col.2 ∈ entityCols schema fin ∧
    (joins = [] → fin = current) ∧
    (∀ j, joins.getLast? = some j → j.target = fin) := by
  intro parts
  induction parts with
  | nil =>
    intro first current col fin joins hmap hres
    simp [resolveParts] at hres
  | cons part rest ih =>
    intro first current col fin joins hmap hres
    simp only [resolveParts] at hres
    split at hres
    · cases hres
    · rename_i e c hat
      split at hres
      · rename_i hrest
        injection hres with hres
        injection hres with h1 hres2
        injection hres2 with h2 h3
        subst h1
        subst h2
        subst h3
        obtain ⟨he, hc, hmem⟩ := getAttr_col schema current part e c hat
        subst he
        subst hc
        refine ⟨?_, rfl, hmem, fun _ => rfl, ?_⟩
        · subst hrest; rfl
        · intro j hj; cases hj
      · cases hres
    · rename_i rp hat
      split at hres
      · cases hres
      · rename_i hrest
        split at hres
        · cases hres
        · rename_i j0 hj0eq
          split at hres
          · cases hres
          · rename_i col2 fin2 joins2 hrec
            injection hres with hres
            injection hres with h1 hres2
            injection hres2 with h2 h3
            subst h1
            subst h2
            subst h3
            have hj0t : j0.target = rp.target := by
              cases first with
              | false =>
                simp at hj0eq
                rw [hj0eq]
              | true =>
                simp only [if_pos] at hj0eq
                have hsame : j0 = rp :=
                  hmap rfl (part, j0) (lookupKey_mem rmap part j0 hj0eq) rp hat
                rw [hsame]
            obtain ⟨ihlen, ihcol, ihmem, ihnil, ihlast⟩ :=
              ih false rp.target col2 fin2 joins2 (fun hf => absurd hf (by simp)) hrec
            refine ⟨?_, ihcol, ihmem, ?_, ?_⟩
            · simp only [List.length_cons]
              omega
            · intro h; cases h
            · intro j hj
              cases joins2 with
              | nil =>
                simp at hj
                subst hj
                rw [← ihnil rfl] at hj0t
                exact hj0t
              | cons a as =>
                rw [List.getLast?_cons_cons] at hj
                exact ihlast j hj

/-- C4: for every field specifier that resolves successfully, the number
of relationship hops equals the number of relationship segments (all
segments except the terminal column), the terminal column belongs to the
final entity, and that final entity is the base entity when there are no
hops and the target entity of the last hop otherwise. The hypothesis
states that the caller-supplied relations_map entries agree with the
schema relationships of the base entity, which the source comments assert
when describing the map. -/
theorem c4_resolved_path_shape :
    ∀ (schema : Schema) (model_cls field_specifier : String)
      (rmap : List (String × RelProp)) (col : String × String) (fin : String)
      (joins : List RelProp),
    (∀ pr ∈ rmap, ∀ rs, getAttr schema model_cls pr.1 = some (Attr.rel rs) → pr.2 = rs) →
    _get_column_or_relationship schema model_cls field_specifier rmap =
      Except.ok (col, fin, joins) →
    joins.length + 1 = (splitDot field_specifier).length ∧
    col.1 = fin ∧ col.2 ∈ entityCols schema fin ∧
    (joins = [] → fin = model_cls) ∧
    (∀ j, joins.getLast? = some j → j.target = fin) := by
  intro schema model_cls field_specifier rmap col fin joins hmap hres
  exact resolveParts_ok_spec schema rmap (splitDot field_specifier) true model_cls
    col fin joins (fun _ => hmap) hres

/-- Witness for C4 at the depth three specifier rel.sub.c over the
concrete schema: two hops for two relationship segments. -/
theorem c4_witness :
    ([relAB, relBC] : List RelProp).length + 1 = (splitDot "rel.sub.c").length :=
  (c4_resolved_path_shape testSchema "A" "rel.sub.c" rmapA ("C", "c") "C" [relAB, relBC]
    (by
      intro pr hpr rs hrs
      obtain ⟨p1, p2⟩ := pr
      simp [rmapA] at hpr
      obtain ⟨h1, h2⟩ := hpr
      subst h1
      subst h2
      have hrs2 : getAttr testSchema "A" "rel" = some (Attr.rel rs) := hrs
      have hra : getAttr testSchema "A" "rel" = some (Attr.rel relAB) := by decide
      have hcomb := hra.symm.trans hrs2
      injection hcomb with hcomb
      injection hcomb with hcomb)
    (by decide)).1

/-- An operator list containing an operator outside OPERATOR_MAP makes the
operator loop fail, whatever query state it starts from. -/
theorem apply_ops_error_of_bad_op :
    ∀ (ops : List (String × Value)) (col : String × String) (jp : List RelProp)
      (q : Query) (lc : List (String × String × String × Value)),
    (∃ op v, (op, v) ∈ ops ∧ strLower op ∉ OPERATOR_MAP_keys) →
    ∃ e, apply_ops col jp q lc ops = Except.error e := by
  intro ops
  induction ops with
  | nil =>
    rintro col jp q lc ⟨op, v, hmem, _⟩
    simp at hmem
  | cons hd rest ih =>
    rintro col jp q lc ⟨op, v, hmem, hbad⟩
    obtain ⟨op0, v0⟩ := hd
    by_cases hop : strLower op0 ∉ OPERATOR_MAP_keys
    · exact ⟨QErr.unsupportedOperator, by simp [apply_ops, hop]⟩
    · push_neg at hop
      have hrest : (op, v) ∈ rest := by
        rcases List.mem_cons.mp hmem with heq | h
        · injection heq with h1 h2
          subst h1
          exact absurd hop hbad
        · exact h
      simp only [apply_ops]
      rw [if_neg (not_not_intro hop)]
      cases hco : (if strLower op0 = "in" ∨ strLower op0 = "notin"
          then coerceListValue v0 else Except.ok v0) with
      | error e => exact ⟨e, rfl⟩
      | ok v2 =>
        dsimp only
        cases jp with
        | nil => exact ih col [] _ lc ⟨op, v, hrest, hbad⟩
        | cons fr tl =>
          dsimp only
          by_cases htc : col.1 = fr.target
          · rw [if_pos htc]
            by_cases hk : loaderKey fr.rname col.2 op0 v0 ∈ lc
            · rw [if_pos hk]
              exact ih col (fr :: tl) _ lc ⟨op, v, hrest, hbad⟩
            · rw [if_neg hk]
              exact ih col (fr :: tl) _ _ ⟨op, v, hrest, hbad⟩
          · rw [if_neg htc]
            exact ih col (fr :: tl) _ lc ⟨op, v, hrest, hbad⟩

/-- A filter map containing any clause with an operator outside
OPERATOR_MAP makes the whole field loop fail. -/
theorem apply_filters_go_error_of_bad_op (schema : Schema) (m : String)
    (rmap : List (String × RelProp)) :
    ∀ (fp : List (String × List (String × Value))) (q : Query) (seen : List RelProp)
      (lc : List (String × String × String × Value)),
    (∃ f ops, (f, ops) ∈ fp ∧ ∃ op v, (op, v) ∈ ops ∧ strLower op ∉ OPERATOR_MAP_keys) →
    ∃ e, apply_filters_go schema m rmap q seen lc fp = Except.error e := by
  intro fp
  induction fp with
  | nil =>
    rintro q seen lc ⟨f, ops, hmem, _⟩
    simp at hmem
  | cons hd rest ih =>
    rintro q seen lc ⟨f, ops, hmem, op, v, hopmem, hbad⟩
    obtain ⟨f0, ops0⟩ := hd
    simp only [apply_filters_go]
    cases hres : _get_column_or_relationship schema m f0 rmap with
    | error e => exact ⟨e, rfl⟩
    | ok triple =>
      obtain ⟨col, fin, jp⟩ := triple
      dsimp only
      rcases List.mem_cons.mp hmem with heq | hmemrest
      · injection heq with h1 h2
        subst h2
        obtain ⟨e, he⟩ := apply_ops_error_of_bad_op ops col jp (addJoins q seen jp).1 lc
          ⟨op, v, hopmem, hbad⟩
        rw [he]
        exact ⟨e, rfl⟩
      · cases hops : apply_ops col jp (addJoins q seen jp).1 lc ops0 with
        | error e => exact ⟨e, rfl⟩
        | ok st =>
          obtain ⟨q2, lc2⟩ := st
          dsimp only
          exact ih q2 (addJoins q seen jp).2 lc2 ⟨f, ops, hmemrest, op, v, hopmem, hbad⟩

/-- C5: a filter map with a clause whose operator is outside the supported
OPERATOR_MAP set is rejected as a whole, and on an otherwise valid field
the error is exactly the unsupported-operator error with no query
produced. -/
theorem c5_unsupported_operator_fail_fast :
    (∀ (schema : Schema) (q : Query) (m : String)
       (fp : List (String × List (String × Value))) (rmap : List (String × RelProp)),
     (∃ f ops, (f, ops) ∈ fp ∧ ∃ op v, (op, v) ∈ ops ∧ strLower op ∉ OPERATOR_MAP_keys) →
     isErr (apply_filters schema q m fp rmap) = true)
    ∧ (∀ (schema : Schema) (q : Query) (m f op : String) (v : Value)
         (rmap : List (String × RelProp)) (r : (String × String) × String × List RelProp),
       strLower op ∉ OPERATOR_MAP_keys →
       _get_column_or_relationship schema m f rmap = Except.ok r →
       apply_filters schema q m [(f, [(op, v)])] rmap =
         Except.error QErr.unsupportedOperator) := by
  constructor
  · intro schema q m fp rmap hbad
    obtain ⟨e, he⟩ := apply_filters_go_error_of_bad_op schema m rmap fp q [] [] hbad
    unfold apply_filters
    rw [he]
    rfl
  · intro schema q m f op v rmap r hbad hres
    obtain ⟨col, fin, jp⟩ := r
    have hops : apply_ops col jp (addJoins q [] jp).1 [] [(op, v)] =
        Except.error QErr.unsupportedOperator := by
      simp [apply_ops, hbad]
    unfold apply_filters
    simp only [apply_filters_go, hres, hops]

/-- Witness for C5 at a concrete unsupported operator on a valid column of
the concrete schema. -/
theorem c5_witness :
    apply_filters testSchema emptyQuery "A" [("x", [("bogus", Value.str "1")])] rmapA =
      Except.error QErr.unsupportedOperator :=
  c5_unsupported_operator_fail_fast.2 testSchema emptyQuery "A" "x" "bogus" (Value.str "1")
    rmapA (("A", "x"), "A", []) (by decide) (by decide)

/-- The filter join loop never touches the WHERE predicates. -/
theorem addJoins_fst_wheres :
    ∀ (rs : List RelProp) (q : Query) (seen : List RelProp),
    ((addJoins q seen rs).1).wheres = q.wheres := by
  intro rs
  induction rs with
  | nil => intro q seen; rfl
  | cons r rs ih =>
    intro q seen
    by_cases h : r ∈ seen
    · simp only [addJoins, if_pos h]
      exact ih q seen
    · simp only [addJoins, if_neg h]
      exact ih _ _

/-- Evaluation of the operator loop on a single isnull clause: it always
succeeds and appends exactly one null test whose polarity is the boolean
coercion of the value. -/
theorem apply_ops_isnull :
    ∀ (col : String × String) (jp : List RelProp) (q : Query)
      (lc : List (String × String × String × Value)) (v : Value),
    ∃ q2 lc2, apply_ops col jp q lc [("isnull", v)] = Except.ok (q2, lc2) ∧
      q2.wheres = q.wheres ++
        [if _parse_bool v then Predicate.isNull col else Predicate.isNotNull col] := by
  intro col jp q lc v
  simp only [apply_ops]
  rw [if_neg (by decide : ¬(strLower "isnull" ∉ OPERATOR_MAP_keys))]
  rw [if_neg (by decide : ¬(strLower "isnull" = "in" ∨ strLower "isnull" = "notin"))]
  dsimp only
  cases jp with
  | nil => exact ⟨_, lc, rfl, rfl⟩
  | cons fr tl =>
    dsimp only
    by_cases htc : col.1 = fr.target
    · rw [if_pos htc]
      by_cases hk : loaderKey fr.rname col.2 "isnull" v ∈ lc
      · rw [if_pos hk]
        exact ⟨_, lc, rfl, rfl⟩
      · rw [if_neg hk]
        exact ⟨_, _, rfl, rfl⟩
    · rw [if_neg htc]
      exact ⟨_, lc, rfl, rfl⟩

/-- C6: compiling a single isnull clause on any resolvable column appends
the is-null predicate exactly when the value coerces to boolean true
under the case-insensitive true/yes/1/on rule and the is-not-null
predicate otherwise; in particular the strings true and yes coerce to
true and the string false coerces to false. -/
theorem c6_isnull_boolean_coercion :
    ∀ (schema : Schema) (q : Query) (m f : String) (rmap : List (String × RelProp))
      (v : Value) (col : String × String) (fin : String) (jp : List RelProp),
    _get_column_or_relationship schema m f rmap = Except.ok (col, fin, jp) →
    (apply_filters schema q m [(f, [("isnull", v)])] rmap).map Query.wheres =
      Except.ok (q.wheres ++
        [if _parse_bool v then Predicate.isNull col else Predicate.isNotNull col]) ∧
    _parse_bool (Value.str "true") = true ∧ _parse_bool (Value.str "yes") = true ∧
    _parse_bool (Value.str "false") = false := by
  intro schema q m f rmap v col fin jp hres
  refine ⟨?_, by decide, by decide, by decide⟩
  unfold apply_filters
  simp only [apply_filters_go, hres]
  obtain ⟨q2, lc2, hops, hw⟩ := apply_ops_isnull col jp (addJoins q [] jp).1 [] v
  rw [hops]
  dsimp only [Except.map]
  rw [hw, addJoins_fst_wheres]

/-- Witness for C6 at the concrete column x of entity A with the raw value
true. -/
theorem c6_witness :
    (apply_filters testSchema emptyQuery "A" [("x", [("isnull", Value.str "true")])] rmapA).map
        Query.wheres =
      Except.ok (emptyQuery.wheres ++
        [if _parse_bool (Value.str "true") then Predicate.isNull ("A", "x")
         else Predicate.isNotNull ("A", "x")]) ∧
    _parse_bool (Value.str "true") = true ∧ _parse_bool (Value.str "yes") = true ∧
    _parse_bool (Value.str "false") = false :=
  c6_isnull_boolean_coercion testSchema emptyQuery "A" "x" rmapA (Value.str "true")
    ("A", "x") "A" [] (by decide)

/-- The filter join loop appends exactly the relationship properties that
were not yet in the dedup set, records them in the set in the same order,
and never appends a duplicate. -/
theorem addJoins_joins_delta :
    ∀ (rs : List RelProp) (q : Query) (seen : List RelProp),
    ∃ delta,
      ((addJoins q seen rs).1).joins = q.joins ++ delta ∧
      (addJoins q seen rs).2 = seen ++ delta ∧
      (∀ x ∈ delta, x ∉ seen) ∧ delta.Nodup := by
  intro rs
  induction rs with
  | nil =>
    intro q seen
    exact ⟨[], by simp [addJoins], by simp [addJoins], by simp, List.nodup_nil⟩
  | cons r rs ih =>
    intro q seen
    by_cases h : r ∈ seen
    · simp only [addJoins, if_pos h]
      obtain ⟨delta, h1, h2, h3, h4⟩ := ih q seen
      exact ⟨delta, h1, h2, h3, h4⟩
    · simp only [addJoins, if_neg h]
      obtain ⟨delta, h1, h2, h3, h4⟩ := ih { q with joins := q.joins ++ [r] } (seen ++ [r])
      refine ⟨r :: delta, ?_, ?_, ?_, ?_⟩
      · rw [h1]
        simp
      · rw [h2]
        simp
      · intro x hx
        rcases List.mem_cons.mp hx with hx | hx
        · subst hx
          exact h
        · intro hxs
          exact h3 x hx (List.mem_append.mpr (Or.inl hxs))
      · refine List.nodup_cons.mpr ⟨?_, h4⟩
        intro hrd
        exact h3 r hrd (List.mem_append.mpr (Or.inr (List.mem_singleton.mpr rfl)))

/-- The operator loop never touches the joins of the query. -/
theorem apply_ops_joins :
    ∀ (ops : List (String × Value)) (col : String × String) (jp : List RelProp)
      (q : Query) (lc : List (String × String × String × Value))
      (q2 : Query) (lc2 : List (String × String × String × Value)),
    apply_ops col jp q lc ops = Except.ok (q2, lc2) → q2.joins = q.joins := by
  intro ops
  induction ops with
  | nil =>
    intro col jp q lc q2 lc2 h
    injection h with h
    injection h with h1 h2
    subst h1
    rfl
  | cons hd rest ih =>
    intro col jp q lc q2 lc2 h
    obtain ⟨op0, v0⟩ := hd
    simp only [apply_ops] at h
    split at h
    · cases h
    · split at h
      · cases h
      · rename_i v2 hco
        cases jp with
        | nil =>
          dsimp only at h
          have h5 := ih _ _ _ _ _ _ h
          exact h5
        | cons fr tl =>
          dsimp only at h
          split at h
          · split at h
            · have h5 := ih _ _ _ _ _ _ h
              exact h5
            · have h5 := ih _ _ _ _ _ _ h
              exact h5
          · have h5 := ih _ _ _ _ _ _ h
            exact h5

/-- On success the field loop of apply_filters appends a duplicate-free
list of new relationship joins to the query: within one apply_filters
call every distinct relationship property is joined at most once. -/
theorem apply_filters_go_delta (schema : Schema) (m : String)
    (rmap : List (String × RelProp)) :
    ∀ (fp : List (String × List (String × Value))) (q : Query) (seen : List RelProp)
      (lc : List (String × String × String × Value)) (q2 : Query)
      (seen2 : List RelProp) (lc2 : List (String × String × String × Value)),
    apply_filters_go schema m rmap q seen lc fp = Except.ok (q2, seen2, lc2) →
    ∃ delta, q2.joins = q.joins ++ delta ∧ seen2 = seen ++ delta ∧
      (∀ x ∈ delta, x ∉ seen) ∧ delta.Nodup := by
  intro fp
  induction fp with
  | nil =>
    intro q seen lc q2 seen2 lc2 h
    injection h with h
    injection h with h1 hrest
    injection hrest with h2 h3
    subst h1
    subst h2
    exact ⟨[], by simp, by simp, by simp, List.nodup_nil⟩
  | cons hd rest ih =>
    intro q seen lc q2 seen2 lc2 h
    obtain ⟨f0, ops0⟩ := hd
    simp only [apply_filters_go] at h
    split at h
    · cases h
    · rename_i col fin jp hres
      split at h
      · cases h
      · rename_i q3 lc3 hops
        obtain ⟨d1, hd1j, hd1s, hd1n, hd1nd⟩ := addJoins_joins_delta jp q seen
        have hq3 : q3.joins = ((addJoins q seen jp).1).joins :=
          apply_ops_joins ops0 col jp _ lc q3 lc3 hops
        obtain ⟨d2, hd2j, hd2s, hd2n, hd2nd⟩ :=
          ih q3 (addJoins q seen jp).2 lc3 q2 seen2 lc2 h
        refine ⟨d1 ++ d2, ?_, ?_, ?_, ?_⟩
        · rw [hd2j, hq3, hd1j, List.append_assoc]
        · rw [hd2s, hd1s, List.append_assoc]
        · intro x hx
          rcases List.mem_append.mp hx with h1 | h2
          · exact hd1n x h1
          · intro hxs
            exact hd2n x h2 (by rw [hd1s]; exact List.mem_append.mpr (Or.inl hxs))
        · refine List.Nodup.append hd1nd hd2nd ?_
          intro x hx1 hx2
          exact hd2n x hx2 (by rw [hd1s]; exact List.mem_append.mpr (Or.inr hx1))

/-- Counterexample to C1: filtering on rel.a and then sorting on rel.b
with the same relations_map joins the same (source entity, relationship)
pair twice, because apply_sorting re-issues its joins unconditionally
instead of consulting the dedup set of apply_filters. -/
theorem c1_counterexample :
    (apply_filters testSchema emptyQuery "A" [("rel.a", [("eq", Value.str "v")])] rmapA).bind
      (fun q => apply_sorting testSchema q "A" "rel.b" (some "asc") rmapA) =
    Except.ok { joins := [relAB, relAB],
                wheres := [Predicate.cmp "eq" ("B", "a") (Value.str "v")],
                orderBy := [("asc", ("B", "b"))],
                loadOpts := [LoadOpt.loaderCriteria "rel"
                  (Predicate.cmp "eq" ("B", "a") (Value.str "v"))] } ∧
    ([relAB, relAB] : List RelProp).count relAB = 2 := by
  constructor
  · decide
  · decide

/-- Evaluation of the crud_utils.py operator loop on a single eq clause:
it succeeds and appends exactly one comparison predicate. -/
theorem crud_apply_ops_eq_clause :
    ∀ (col : String × String) (q : Query) (v : Value),
    crud_apply_ops col q [("eq", v)] =
      Except.ok { q with wheres := q.wheres ++ [Predicate.cmp "eq" col v] } := by
  intro col q v
  simp only [crud_apply_ops]
  rw [if_neg (by decide : ¬(strLower "eq" ∉ OPERATOR_MAP_keys))]
  rw [if_neg (by decide : ¬(strLower "eq" = "in" ∨ strLower "eq" = "notin"))]
  rfl

/-- C1 as amended: the program attaches one join per hop occurrence, not
one per distinct (source entity, relationship) pair. The apply_filters
copy the service layer imports (crud_utils.py) joins the path of every
filter clause unconditionally, its dedup check being commented out, so
two clauses through the same relationship join it twice inside one call;
and apply_sorting appends one join per hop of the sort path
unconditionally, without consulting any dedup state of the filters. -/
theorem c1_amended_per_occurrence_joins :
    (∀ (schema : Schema) (q : Query) (m : String) (rmap : List (String × RelProp))
       (f1 f2 : String) (v1 v2 : Value) (col1 col2 : String × String)
       (fin1 fin2 : String) (jp1 jp2 : List RelProp),
     _get_column_or_relationship schema m f1 rmap = Except.ok (col1, fin1, jp1) →
     _get_column_or_relationship schema m f2 rmap = Except.ok (col2, fin2, jp2) →
     crud_apply_filters schema q m [(f1, [("eq", v1)]), (f2, [("eq", v2)])] rmap =
       Except.ok { q with
         joins := q.joins ++ jp1 ++ jp2,
         wheres := q.wheres ++ [Predicate.cmp "eq" col1 v1] ++ [Predicate.cmp "eq" col2 v2] })
    ∧ (∀ (schema : Schema) (q : Query) (m sb : String) (rmap : List (String × RelProp))
         (col : String × String) (fin : String) (jp : List RelProp),
       sb ≠ "" →
       _get_column_or_relationship schema m sb rmap = Except.ok (col, fin, jp) →
       apply_sorting schema q m sb none rmap =
         Except.ok { q with joins := q.joins ++ jp,
                            orderBy := q.orderBy ++ [("asc", col)] }) := by
  constructor
  · intro schema q m rmap f1 f2 v1 v2 col1 col2 fin1 fin2 jp1 jp2 hres1 hres2
    unfold crud_apply_filters
    simp only [crud_apply_filters_go, hres1, hres2]
    rw [crud_apply_ops_eq_clause]
    dsimp only
    rw [crud_apply_ops_eq_clause]
  · intro schema q m sb rmap col fin jp hsb hres
    unfold apply_sorting
    rw [if_neg hsb]
    dsimp only
    rw [if_neg (by decide : ¬(("asc" : String) ≠ "asc" ∧ ("asc" : String) ≠ "desc"))]
    simp only [hres]

/-- Witness for C1 as amended, at the concrete schema: two filter clauses
through the same relationship rel make crud_apply_filters join it twice
within one call, and a concrete apply_sorting call appends its resolved
hop unconditionally. -/
theorem c1_witness :
    crud_apply_filters testSchema emptyQuery "A"
        [("rel.a", [("eq", Value.str "v")]), ("rel.b", [("eq", Value.str "w")])] rmapA =
      Except.ok { emptyQuery with
        joins := emptyQuery.joins ++ [relAB] ++ [relAB],
        wheres := emptyQuery.wheres ++ [Predicate.cmp "eq" ("B", "a") (Value.str "v")]
          ++ [Predicate.cmp "eq" ("B", "b") (Value.str "w")] } ∧
    apply_sorting testSchema emptyQuery "A" "rel.b" none rmapA =
      Except.ok { emptyQuery with joins := emptyQuery.joins ++ [relAB],
                                  orderBy := emptyQuery.orderBy ++ [("asc", ("B", "b"))] } :=
  ⟨c1_amended_per_occurrence_joins.1 testSchema emptyQuery "A" rmapA "rel.a" "rel.b"
      (Value.str "v") (Value.str "w") ("B", "a") ("B", "b") "B" "B" [relAB] [relAB]
      (by decide) (by decide),
   c1_amended_per_occurrence_joins.2 testSchema emptyQuery "A" "rel.b" rmapA ("B", "b") "B"
      [relAB] (by decide) (by decide)⟩

/-- Writing a key into an association list never empties it. -/
theorem setKey_ne_nil {α : Type} :
    ∀ (m : List (String × α)) (k : String) (v : α), setKey m k v ≠ [] := by
  intro m k v
  cases m with
  | nil => simp [setKey]
  | cons kv rest =>
    obtain ⟨k0, w⟩ := kv
    simp only [setKey]
    split <;> simp

/-- Splitting never yields an empty token list. -/
theorem splitOnChar_ne_nil : ∀ (sep : Char) (cs : List Char), splitOnChar sep cs ≠ [] := by
  intro sep cs
  induction cs with
  | nil => simp [splitOnChar]
  | cons c rest ih =>
    simp only [splitOnChar]
    split
    · simp
    · cases h : splitOnChar sep rest with
      | nil => exact absurd h ih
      | cons g gs => simp

/-- Splitting a field path on dots never yields an empty part list. -/
theorem splitDot_ne_nil : ∀ s : String, splitDot s ≠ [] := by
  intro s h
  unfold splitDot at h
  rw [List.map_eq_nil_iff] at h
  exact splitOnChar_ne_nil '.' s.toList h

/-- Inserting a field path into the include dictionary yields a non-empty
dictionary whenever the dictionary or the path is non-empty. -/
theorem insertParts_ne_nil :
    ∀ (parts : List String) (d : List (String × SelNode)),
    (d ≠ [] ∨ parts ≠ []) → insertParts d parts ≠ [] := by
  intro parts d hyp
  cases parts with
  | nil =>
    rcases hyp with h | h
    · simpa [insertParts] using h
    · exact absurd rfl h
  | cons p rest =>
    simp only [insertParts]
    cases hm : matchListPart p with
    | some ln =>
      dsimp only
      split
      · exact setKey_ne_nil _ _ _
      · exact setKey_ne_nil _ _ _
    | none =>
      dsimp only
      split
      · split
        · rename_i hlk
          intro hd
          subst hd
          simp [lookupKey] at hlk
        · exact setKey_ne_nil _ _ _
      · exact setKey_ne_nil _ _ _

/-- Folding field-path insertions preserves dictionary non-emptiness. -/
theorem foldl_insertParts_ne_nil :
    ∀ (fs : List String) (d : List (String × SelNode)), d ≠ [] →
    fs.foldl (fun d2 f => insertParts d2 (splitDot f)) d ≠ [] := by
  intro fs
  induction fs with
  | nil =>
    intro d hd
    simpa using hd
  | cons f fs ih =>
    intro d hd
    simp only [List.foldl_cons]
    exact ih _ (insertParts_ne_nil (splitDot f) d (Or.inl hd))

/-- Counterexample to C8: the selector consisting of a single comma is
non-empty after trimming whitespace, yet the parser returns None because
every comma-separated token is empty. -/
theorem c8_counterexample :
    strTrim "," ≠ "" ∧ parse_select_fields_for_pydantic (some ",") = none := by
  constructor
  · decide
  · rfl

/-- C8 as amended: the selection tree is non-empty at the root whenever at
least one comma-separated token of the selector is non-empty after
stripping, rather than whenever the whole selector is non-empty after
trimming. -/
theorem c8_amended_nonempty_token :
    ∀ s : String, (∃ t ∈ splitComma s, strTrim t ≠ "") →
    parse_select_fields_for_pydantic (some s) ≠ none ∧
    parse_select_fields_for_pydantic (some s) ≠ some [] := by
  rintro s ⟨t, ht, htne⟩
  have hs : s ≠ "" := by
    intro h
    subst h
    have ht0 : t = "" := by simpa [splitComma, splitOnChar] using ht
    subst ht0
    exact htne (by decide)
  have hmem : strTrim t ∈ ((splitComma s).map strTrim).filter (fun t2 => t2 ≠ "") := by
    refine List.mem_filter.mpr ⟨List.mem_map_of_mem strTrim ht, ?_⟩
    simpa using htne
  unfold parse_select_fields_for_pydantic
  dsimp only
  rw [if_neg hs]
  cases hfl : ((splitComma s).map strTrim).filter (fun t2 => t2 ≠ "") with
  | nil =>
    rw [hfl] at hmem
    simp at hmem
  | cons f fs =>
    dsimp only
    have hfold : (f :: fs).foldl (fun d2 g => insertParts d2 (splitDot g)) [] ≠ [] := by
      simp only [List.foldl_cons]
      exact foldl_insertParts_ne_nil fs _
        (insertParts_ne_nil (splitDot f) [] (Or.inr (splitDot_ne_nil f)))
    cases hfd : (f :: fs).foldl (fun d2 g => insertParts d2 (splitDot g)) [] with
    | nil => exact absurd hfd hfold
    | cons d0 ds =>
      constructor
      · simp
      · simp

/-- Witness for C8 as amended at the concrete selector id. -/
theorem c8_witness :
    parse_select_fields_for_pydantic (some "id") ≠ none ∧
    parse_select_fields_for_pydantic (some "id") ≠ some [] :=
  c8_amended_nonempty_token "id" ⟨"id", by decide, by decide⟩
